import Mathlib

/-!
Shallow embedding of the real-time funding-rate monitoring pipeline
(`real_time_monitor.py` together with the constants of `config.py`).

Rates, annualized rates and timestamps are modelled over the rationals;
timestamps are seconds in a single canonical timezone, so that the
difference of two timestamps is the elapsed time in seconds (matching
`timedelta.total_seconds()`).  Python exceptions are modelled with
`Except`; a `try/except` block that swallows an exception is modelled
by the corresponding total function.
-/

namespace FundingBot

/-- Python `abs` on a rational number. -/
def pabs (q : ℚ) : ℚ := if q < 0 then -q else q

/-- One step of Python `str.replace(pat, "")`: delete every occurrence of
`pat` in the character list, scanning left to right and continuing after a
deleted occurrence.  `fuel` bounds the recursion; with `fuel` at least the
length of the input and a nonempty pattern the scan always completes. -/
def stripAux (pat : List Char) : ℕ → List Char → List Char
  | 0, l => l
  | _ + 1, [] => []
  | fuel + 1, c :: cs =>
    if pat.isPrefixOf (c :: cs) then
      stripAux pat fuel (List.drop pat.length (c :: cs))
    else
      c :: stripAux pat fuel cs

/-- Python `s.replace(pat, "")` for a nonempty pattern `pat`. -/
def pyDelete (s pat : String) : String :=
  ⟨stripAux pat.data s.data.length s.data⟩

/-- `config.py`: `TOP_50_COINS`, the excluded major-coin denylist. -/
def TOP_50_COINS : List String :=
  ["BTC", "ETH", "USDT", "XRP", "BNB", "SOL", "USDC", "TRX",
   "DOGE", "ADA", "WBTC", "SUI", "LINK", "BCH", "LEO", "XLM",
   "AVAX", "TON", "WBT", "SHIB", "HBAR", "LTC", "XMR", "DOT",
   "DAI", "BGB", "UNI", "PEPE", "AAVE", "APT", "TAO", "OKB",
   "NEAR", "ICP", "CRO", "ETC", "ONDO", "MNT", "TKX", "GT",
   "KAS", "FTN", "POL", "VET", "TRUMP", "RENDER", "SEI", "ENA", "FET"]

/-- `config.py`: `BotConfig.min_apr_threshold = 50.0`. -/
def min_apr_threshold : ℚ := 50

/-- `config.py`: `WebSocketConfig.max_reconnects = 10`. -/
def max_reconnects : ℕ := 10

/-- `real_time_monitor.py`: the `FundingUpdate` dataclass.  `timestamp` is
seconds; `change_percent` carries the dataclass default `0.0` until the
significance filter overwrites it. -/
structure FundingUpdate where
  symbol : String
  funding_rate : ℚ
  apr : ℚ
  exchange : String
  timestamp : ℚ
  change_percent : ℚ
  deriving DecidableEq

/-- `FundingUpdate.__post_init__`: validation and automatic APR
derivation.  Raises (`Except.error`) on a symbol shorter than two
characters and on a funding rate of magnitude above 50; derives
`apr = abs(funding_rate) * 3 * 365` when the supplied `apr` is 0. -/
def mkFundingUpdate (symbol : String) (funding_rate : ℚ) (apr : ℚ)
    (exchange : String) (timestamp : ℚ) : Except String FundingUpdate :=
  if symbol.length < 2 then
    .error "bad symbol"
  else if 50 < pabs funding_rate then
    .error "suspiciously high funding rate"
  else
    .ok { symbol := symbol
          funding_rate := funding_rate
          apr := if apr = 0 then pabs funding_rate * 3 * 365 else apr
          exchange := exchange
          timestamp := timestamp
          change_percent := 0 }

/-- The funding-rate field of one payload entry, as seen by
`float(item.get(field, 0))`: the field can be absent (Python default `0`),
present with a value `float` can parse, or present but malformed so that
`float` raises. -/
inductive RField
  | missing
  | malformed
  | val (q : ℚ)
  deriving DecidableEq

/-- One entry of a Binance ticker-array payload: the raw symbol string
`s` (a missing field is modelled as the empty string, which is what the
Python get call with an empty-string default yields) and the raw
funding-rate field `r`. -/
structure BTicker where
  s : String
  r : RField
  deriving DecidableEq

/-- A Binance websocket payload after `json.loads`: either an array of
tickers or some other JSON value (the `isinstance(data, list)` check). -/
inductive BinanceMsg
  | arr (tickers : List BTicker)
  | nonArray
  deriving DecidableEq

/-- Outcome of one iteration of a parser loop body: the entry is skipped,
produces an event, or raises an exception that aborts the loop. -/
inductive StepRes
  | skip
  | ev (u : FundingUpdate)
  | err
  deriving DecidableEq

/-- The body of the `parse_binance_data` loop for one ticker: strip the
quote-currency suffixes, skip members of the denylist, read the rate
(a malformed field raises), skip exact-zero rates, multiply by 100 and
construct the event (construction may raise). -/
def binanceStep (now : ℚ) (t : BTicker) : StepRes :=
  let symbol := pyDelete (pyDelete t.s "USDT") "USD"
  if symbol ∈ TOP_50_COINS then .skip
  else
    match t.r with
    | .missing => .skip
    | .malformed => .err
    | .val q =>
      if q ≠ 0 then
        match mkFundingUpdate symbol (q * 100) 0 "Binance" now with
        | .ok u => .ev u
        | .error _ => .err
      else .skip

/-- The `parse_binance_data` loop over the ticker array: an exception
aborts the loop and the surrounding `except` returns the updates
accumulated so far. -/
def parseBinanceList (now : ℚ) : List BTicker → List FundingUpdate
  | [] => []
  | t :: rest =>
    match binanceStep now t with
    | .skip => parseBinanceList now rest
    | .ev u => u :: parseBinanceList now rest
    | .err => []

/-- `parse_binance_data`: a non-array payload yields no events; an array
payload is parsed entry by entry. -/
def parse_binance_data (now : ℚ) : BinanceMsg → List FundingUpdate
  | .arr l => parseBinanceList now l
  | .nonArray => []

/-- One entry of an OKX `data` array: the raw instrument id and the raw
`fundingRate` field. -/
structure OTicker where
  instId : String
  r : RField
  deriving DecidableEq

/-- An OKX websocket payload: either a message with a `data` list or any
other shape. -/
inductive OkxMsg
  | withData (items : List OTicker)
  | noData
  deriving DecidableEq

/-- The body of the `parse_okx_data` loop for one item. -/
def okxStep (now : ℚ) (t : OTicker) : StepRes :=
  let symbol := pyDelete (pyDelete t.instId "-USDT-SWAP") "-USD-SWAP"
  if symbol ∈ TOP_50_COINS then .skip
  else
    match t.r with
    | .missing => .skip
    | .malformed => .err
    | .val q =>
      if q ≠ 0 then
        match mkFundingUpdate symbol (q * 100) 0 "OKX" now with
        | .ok u => .ev u
        | .error _ => .err
      else .skip

/-- The `parse_okx_data` loop over the `data` array. -/
def parseOkxList (now : ℚ) : List OTicker → List FundingUpdate
  | [] => []
  | t :: rest =>
    match okxStep now t with
    | .skip => parseOkxList now rest
    | .ev u => u :: parseOkxList now rest
    | .err => []

/-- `parse_okx_data`. -/
def parse_okx_data (now : ℚ) : OkxMsg → List FundingUpdate
  | .withData l => parseOkxList now l
  | .noData => []

/-- Modelled from the spec, for the refinement comparison of the rate
scaling heuristic: the same Binance loop body with the scaling the spec
describes, where a value is multiplied by 100 exactly when its absolute
magnitude is under 1 and is passed through unchanged otherwise. -/
def binanceStepSpecScaled (now : ℚ) (t : BTicker) : StepRes :=
  let symbol := pyDelete (pyDelete t.s "USDT") "USD"
  if symbol ∈ TOP_50_COINS then .skip
  else
    match t.r with
    | .missing => .skip
    | .malformed => .err
    | .val q =>
      if q ≠ 0 then
        match mkFundingUpdate symbol (if pabs q < 1 then q * 100 else q) 0 "Binance" now with
        | .ok u => .ev u
        | .error _ => .err
      else .skip

/-- Modelled from the spec: the Binance parser with the magnitude-guarded
scaling heuristic the spec describes. -/
def parseBinanceListSpecScaled (now : ℚ) : List BTicker → List FundingUpdate
  | [] => []
  | t :: rest =>
    match binanceStepSpecScaled now t with
    | .skip => parseBinanceListSpecScaled now rest
    | .ev u => u :: parseBinanceListSpecScaled now rest
    | .err => []

/-- Modelled from the spec: `parse_binance_data` with the magnitude-guarded
scaling heuristic. -/
def parse_binance_data_spec_scaled (now : ℚ) : BinanceMsg → List FundingUpdate
  | .arr l => parseBinanceListSpecScaled now l
  | .nonArray => []

/-- `self.last_funding_data`: a Python dict keyed by the string
`f"{symbol}_{exchange}"`.  Modelled as an association list whose keys stay
unique because insertion removes any previous binding of the key. -/
abbrev FilterState := List (String × FundingUpdate)

/-- Python `d.get(k)` / `k in d` on the last-funding-data dict. -/
def dictGet (k : String) (st : FilterState) : Option FundingUpdate :=
  (List.find? (fun p => p.1 == k) st).map Prod.snd

/-- Python `d[k] = v` on the last-funding-data dict. -/
def dictInsert (k : String) (v : FundingUpdate) (st : FilterState) : FilterState :=
  (k, v) :: List.filter (fun p => ! (p.1 == k)) st

/-- The dict key `f"{update.symbol}_{update.exchange}"`. -/
def fkey (u : FundingUpdate) : String := u.symbol ++ "_" ++ u.exchange

/-- The change magnitude computed by `should_process_update`:
`abs(new - old) / abs(old) * 100`, and `0` when the stored rate is
exactly `0`. -/
def changeMag (u last : FundingUpdate) : ℚ :=
  if last.funding_rate ≠ 0 then
    pabs (u.funding_rate - last.funding_rate) / pabs last.funding_rate * 100
  else 0

/-- `should_process_update`, the significance filter.  The result triple
is the returned boolean, the event object as it stands after the call
(Python mutates `update.change_percent` in place once the time gate has
passed), and the new filter state. -/
def should_process_update (u : FundingUpdate) (st : FilterState) :
    Bool × FundingUpdate × FilterState :=
  if u.apr < min_apr_threshold then (false, u, st)
  else
    match dictGet (fkey u) st with
    | some last =>
      if u.timestamp - last.timestamp < 60 then (false, u, st)
      else
        let u2 := { u with change_percent := changeMag u last }
        if changeMag u last < 10 then (false, u2, st)
        else (true, u2, dictInsert (fkey u) u2 st)
    | none => (true, u, dictInsert (fkey u) u st)

/-- `self.update_queue = queue.Queue()`: created with no `maxsize`, so the
queue is unbounded.  Modelled as a FIFO list; `put` appends at the tail. -/
abbrev DispatchQueue := List FundingUpdate

/-- `queue.Queue.put` on a queue created without a capacity bound: always
appends, never blocks, never drops. -/
def queue_put (u : FundingUpdate) (q : List FundingUpdate) : List FundingUpdate :=
  q ++ [u]

/-- The queue reached from the empty queue by `n` successive `put` calls
of the event `u`, as performed by the enqueue loop of
`process_websocket_message`. -/
def putN (u : FundingUpdate) : ℕ → List FundingUpdate
  | 0 => []
  | n + 1 => queue_put u (putN u n)

/-- One iteration of the `monitor_exchange` reconnection loop per unit of
remaining attempt budget, in the run where every connection attempt fails:
the attempt raises, `reconnect_count` increases by one, and the loop
continues while `reconnect_count < max_reconnects`.  The argument is
`max_reconnects - reconnect_count`; the value is the number of connection
attempts made. -/
def failLoopAux : ℕ → ℕ
  | 0 => 0
  | r + 1 => failLoopAux r + 1

/-- Outcome of a completed `monitor_exchange` run. -/
structure MonitorOutcome where
  attempts : ℕ
  finalCount : ℕ
  failedTerminal : Bool
  connections : List String
  deriving DecidableEq

/-- `monitor_exchange` in the run where every connection attempt fails and
no stop request arrives: the while loop starts at `reconnect_count = 0`
and runs while `reconnect_count < maxR`, each iteration making one failing
connection attempt; afterwards the terminal-failure branch tests
`reconnect_count >= maxR` and the source is popped from the active
connection dict. -/
def monitor_exchange_all_fail (maxR : ℕ) (conns : List String) (ex : String) :
    MonitorOutcome :=
  let a := failLoopAux maxR
  { attempts := a
    finalCount := a
    failedTerminal := decide (maxR ≤ a)
    connections := List.filter (fun c => ! (c == ex)) conns }

/-- One run of the `periodic_cleanup` sweep body at time `now`: the cutoff
is `now` minus one hour (3600 seconds); every entry whose stored timestamp
is strictly below the cutoff is collected and deleted. -/
def periodic_cleanup_once (now : ℚ) (st : FilterState) : FilterState :=
  List.filter (fun p => ! decide (p.2.timestamp < now - 3600)) st

/-- Formalization of a payload the parser "cannot interpret": its envelope
is not an array, or some entry carries a funding-rate field that `float`
cannot parse. -/
def hasBadPart : BinanceMsg → Bool
  | .arr l => l.any (fun t => decide (t.r = .malformed))
  | .nonArray => true

/-- A well-formed Binance ticker entry: symbol `ZETAUSDT`, fractional
funding rate `0.0001`. -/
def tickerGood : BTicker := ⟨"ZETAUSDT", .val (1/10000)⟩

/-- A Binance ticker entry whose funding-rate field `float` cannot
parse. -/
def tickerBad : BTicker := ⟨"OMUSDT", .malformed⟩

/-- A Binance ticker entry whose funding-rate value has absolute
magnitude at least 1. -/
def tickerBig : BTicker := ⟨"ZETAUSDT", .val 2⟩

/-- A payload with one well-formed entry followed by one malformed
entry. -/
def payloadTrunc : BinanceMsg := .arr [tickerGood, tickerBad]

/-- A payload whose single entry carries a rate of magnitude at least
1. -/
def payloadBig : BinanceMsg := .arr [tickerBig]

/-- The event parsed from `tickerGood` at time 0. -/
def evZeta : FundingUpdate := ⟨"ZETA", 1/100, 219/20, "Binance", 0, 0⟩

/-- The event the spec-described magnitude-guarded scaling would parse
from `tickerBig` at time 0. -/
def evBig : FundingUpdate := ⟨"ZETA", 2, 2190, "Binance", 0, 0⟩

/-- A stored prior event for the key `ZETA_Binance` at time 0. -/
def evPrior : FundingUpdate := ⟨"ZETA", 1, 1095, "Binance", 0, 0⟩

/-- A later reading for the same key with a doubled rate, 100 seconds
after `evPrior`. -/
def evNext : FundingUpdate := ⟨"ZETA", 2, 2190, "Binance", 100, 0⟩

/-- The same reading as `evPrior`, arriving 30 seconds later. -/
def evSame30 : FundingUpdate := ⟨"ZETA", 1, 1095, "Binance", 30, 0⟩

/-- A filter state holding `evPrior` under its key. -/
def stPrior : FilterState := dictInsert "ZETA_Binance" evPrior []

/-! Helper lemmas. -/

theorem pabs_eq_abs (q : ℚ) : pabs q = |q| := by
  unfold pabs
  rcases le_or_lt 0 q with h | h
  · rw [if_neg (not_lt.mpr h), abs_of_nonneg h]
  · rw [if_pos h, abs_of_neg h]

theorem mkFundingUpdate_ok {s : String} {r a : ℚ} {ex : String} {ts : ℚ}
    {u : FundingUpdate} (h : mkFundingUpdate s r a ex ts = .ok u) :
    u.symbol = s ∧ u.funding_rate = r ∧ u.exchange = ex ∧ u.timestamp = ts ∧
      u.change_percent = 0 ∧ u.apr = (if a = 0 then pabs r * 3 * 365 else a) ∧
      pabs r ≤ 50 ∧ 2 ≤ s.length := by
  unfold mkFundingUpdate at h
  split_ifs at h with h1 h2 h3
  all_goals simp only [Except.ok.injEq] at h
  · subst h
    refine ⟨rfl, rfl, rfl, rfl, rfl, ?_, le_of_not_lt h2, le_of_not_lt h1⟩
    rw [if_pos h3]
  · subst h
    refine ⟨rfl, rfl, rfl, rfl, rfl, ?_, le_of_not_lt h2, le_of_not_lt h1⟩
    rw [if_neg h3]

theorem binanceStep_ev {now : ℚ} {t : BTicker} {u : FundingUpdate}
    (h : binanceStep now t = .ev u) :
    ∃ q : ℚ, t.r = .val q ∧ q ≠ 0 ∧
      mkFundingUpdate (pyDelete (pyDelete t.s "USDT") "USD") (q * 100) 0
        "Binance" now = .ok u := by
  unfold binanceStep at h
  simp only [] at h
  split at h
  · exact absurd h (by simp)
  · split at h
    · exact absurd h (by simp)
    · exact absurd h (by simp)
    · rename_i q hq
      split at h
      · split at h
        · rename_i u2 hmk
          exact ⟨q, hq, by assumption, by rw [hmk]; cases h; rfl⟩
        · exact absurd h (by simp)
      · exact absurd h (by simp)

theorem okxStep_ev {now : ℚ} {t : OTicker} {u : FundingUpdate}
    (h : okxStep now t = .ev u) :
    ∃ q : ℚ, t.r = .val q ∧ q ≠ 0 ∧
      mkFundingUpdate (pyDelete (pyDelete t.instId "-USDT-SWAP") "-USD-SWAP")
        (q * 100) 0 "OKX" now = .ok u := by
  unfold okxStep at h
  simp only [] at h
  split at h
  · exact absurd h (by simp)
  · split at h
    · exact absurd h (by simp)
    · exact absurd h (by simp)
    · rename_i q hq
      split at h
      · split at h
        · rename_i u2 hmk
          exact ⟨q, hq, by assumption, by rw [hmk]; cases h; rfl⟩
        · exact absurd h (by simp)
      · exact absurd h (by simp)

theorem mem_parseBinanceList {now : ℚ} {l : List BTicker} {u : FundingUpdate}
    (h : u ∈ parseBinanceList now l) : ∃ t ∈ l, binanceStep now t = .ev u := by
  induction l with
  | nil => exact absurd h (by simp [parseBinanceList])
  | cons t rest ih =>
    rw [parseBinanceList] at h
    split at h
    · obtain ⟨t2, ht2, hev⟩ := ih h
      exact ⟨t2, List.mem_cons_of_mem _ ht2, hev⟩
    · rename_i u2 hev
      rcases List.mem_cons.mp h with h | h
      · exact ⟨t, List.mem_cons_self .., by rw [hev, h]⟩
      · obtain ⟨t2, ht2, hev2⟩ := ih h
        exact ⟨t2, List.mem_cons_of_mem _ ht2, hev2⟩
    · exact absurd h (by simp)

theorem mem_parseOkxList {now : ℚ} {l : List OTicker} {u : FundingUpdate}
    (h : u ∈ parseOkxList now l) : ∃ t ∈ l, okxStep now t = .ev u := by
  induction l with
  | nil => exact absurd h (by simp [parseOkxList])
  | cons t rest ih =>
    rw [parseOkxList] at h
    split at h
    · obtain ⟨t2, ht2, hev⟩ := ih h
      exact ⟨t2, List.mem_cons_of_mem _ ht2, hev⟩
    · rename_i u2 hev
      rcases List.mem_cons.mp h with h | h
      · exact ⟨t, List.mem_cons_self .., by rw [hev, h]⟩
      · obtain ⟨t2, ht2, hev2⟩ := ih h
        exact ⟨t2, List.mem_cons_of_mem _ ht2, hev2⟩
    · exact absurd h (by simp)

theorem dictGet_insert (k : String) (v : FundingUpdate) (st : FilterState) :
    dictGet k (dictInsert k v st) = some v := by
  unfold dictGet dictInsert
  simp [List.find?]

theorem spu_low {u : FundingUpdate} {st : FilterState}
    (h1 : u.apr < min_apr_threshold) :
    should_process_update u st = (false, u, st) := by
  unfold should_process_update
  rw [if_pos h1]

theorem spu_new {u : FundingUpdate} {st : FilterState}
    (h1 : ¬ u.apr < min_apr_threshold) (hd : dictGet (fkey u) st = none) :
    should_process_update u st = (true, u, dictInsert (fkey u) u st) := by
  unfold should_process_update
  rw [if_neg h1, hd]

theorem spu_gate {u last : FundingUpdate} {st : FilterState}
    (h1 : ¬ u.apr < min_apr_threshold) (hd : dictGet (fkey u) st = some last)
    (ht : u.timestamp - last.timestamp < 60) :
    should_process_update u st = (false, u, st) := by
  unfold should_process_update
  rw [if_neg h1, hd]
  simp only [if_pos ht]

theorem spu_small {u last : FundingUpdate} {st : FilterState}
    (h1 : ¬ u.apr < min_apr_threshold) (hd : dictGet (fkey u) st = some last)
    (ht : ¬ u.timestamp - last.timestamp < 60) (hc : changeMag u last < 10) :
    should_process_update u st =
      (false, { u with change_percent := changeMag u last }, st) := by
  unfold should_process_update
  rw [if_neg h1, hd]
  simp only [if_neg ht, if_pos hc]

theorem spu_accept {u last : FundingUpdate} {st : FilterState}
    (h1 : ¬ u.apr < min_apr_threshold) (hd : dictGet (fkey u) st = some last)
    (ht : ¬ u.timestamp - last.timestamp < 60) (hc : ¬ changeMag u last < 10) :
    should_process_update u st =
      (true, { u with change_percent := changeMag u last },
        dictInsert (fkey u) { u with change_percent := changeMag u last } st) := by
  unfold should_process_update
  rw [if_neg h1, hd]
  simp only [if_neg ht, if_neg hc]

theorem spu_frame (u : FundingUpdate) (st : FilterState) :
    ((should_process_update u st).2.1).symbol = u.symbol ∧
    ((should_process_update u st).2.1).funding_rate = u.funding_rate ∧
    ((should_process_update u st).2.1).apr = u.apr ∧
    ((should_process_update u st).2.1).exchange = u.exchange ∧
    ((should_process_update u st).2.1).timestamp = u.timestamp := by
  by_cases h1 : u.apr < min_apr_threshold
  · rw [spu_low h1]
    exact ⟨rfl, rfl, rfl, rfl, rfl⟩
  · rcases hd : dictGet (fkey u) st with _ | last
    · rw [spu_new h1 hd]
      exact ⟨rfl, rfl, rfl, rfl, rfl⟩
    · by_cases ht : u.timestamp - last.timestamp < 60
      · rw [spu_gate h1 hd ht]
        exact ⟨rfl, rfl, rfl, rfl, rfl⟩
      · by_cases hc : changeMag u last < 10
        · rw [spu_small h1 hd ht hc]
          exact ⟨rfl, rfl, rfl, rfl, rfl⟩
        · rw [spu_accept h1 hd ht hc]
          exact ⟨rfl, rfl, rfl, rfl, rfl⟩

theorem pabs_scaled_small {q : ℚ} (h : pabs (q * 100) ≤ 50) : pabs q < 1 := by
  rw [pabs_eq_abs] at h ⊢
  rw [abs_mul] at h
  have h0 : |q| * |(100 : ℚ)| = |q| * 100 := by norm_num
  rw [h0] at h
  linarith

/-- Claim C6: every event a source parser emits carries a funding rate of
absolute magnitude at most 50: a reading whose scaled rate exceeds that
bound is rejected by `FundingUpdate.__post_init__` during construction,
so no such event can reach `should_process_update`. -/
theorem parser_output_rate_bounded :
    (∀ now msg u, u ∈ parse_binance_data now msg → pabs u.funding_rate ≤ 50) ∧
    (∀ now msg u, u ∈ parse_okx_data now msg → pabs u.funding_rate ≤ 50) := by
  constructor
  · intro now msg u hu
    cases msg with
    | nonArray => exact absurd hu (by simp [parse_binance_data])
    | arr l =>
      rw [parse_binance_data] at hu
      obtain ⟨t, _, hev⟩ := mem_parseBinanceList hu
      obtain ⟨q, _, _, hmk⟩ := binanceStep_ev hev
      obtain ⟨_, hrate, _, _, _, _, hb, _⟩ := mkFundingUpdate_ok hmk
      rw [hrate]
      exact hb
  · intro now msg u hu
    cases msg with
    | noData => exact absurd hu (by simp [parse_okx_data])
    | withData l =>
      rw [parse_okx_data] at hu
      obtain ⟨t, _, hev⟩ := mem_parseOkxList hu
      obtain ⟨q, _, _, hmk⟩ := okxStep_ev hev
      obtain ⟨_, hrate, _, _, _, _, hb, _⟩ := mkFundingUpdate_ok hmk
      rw [hrate]
      exact hb

/-- Witness for claim C6 at a concrete payload. -/
theorem parser_output_rate_bounded_witness :
    evZeta ∈ parse_binance_data 0 payloadTrunc ∧ pabs evZeta.funding_rate ≤ 50 := by
  have hmem : evZeta ∈ parse_binance_data 0 payloadTrunc := by
    with_unfolding_all decide
  exact ⟨hmem, parser_output_rate_bounded.1 0 payloadTrunc evZeta hmem⟩

/-- Claim C7: when an event is constructed with `apr` supplied as 0, the
constructed annualized rate is `abs(rate) * 3 * 365`; for a rate of 0.05
(as a percentage) this is 54.75. -/
theorem apr_derivation :
    (∀ s : String, ∀ r : ℚ, ∀ ex : String, ∀ ts : ℚ, ∀ u : FundingUpdate,
      mkFundingUpdate s r 0 ex ts = .ok u → u.apr = pabs r * 3 * 365) ∧
    (mkFundingUpdate "XY" (1/20) 0 "Binance" 0).toOption.map FundingUpdate.apr
      = some (5475/100) := by
  constructor
  · intro s r ex ts u h
    obtain ⟨_, _, _, _, _, hapr, _, _⟩ := mkFundingUpdate_ok h
    rw [hapr, if_pos rfl]
  · with_unfolding_all decide

/-- Witness for claim C7 at a concrete input. -/
theorem apr_derivation_witness :
    mkFundingUpdate "XY" (1/20) 0 "OKX" 7 = .ok ⟨"XY", 1/20, 219/4, "OKX", 7, 0⟩ ∧
    (FundingUpdate.mk "XY" (1/20) (219/4) "OKX" 7 0).apr = pabs (1/20) * 3 * 365 := by
  have hmk : mkFundingUpdate "XY" (1/20) 0 "OKX" 7 = .ok ⟨"XY", 1/20, 219/4, "OKX", 7, 0⟩ := by
    with_unfolding_all rfl
  exact ⟨hmk, apr_derivation.1 "XY" (1/20) "OKX" 7 _ hmk⟩

/-- Counterexample for claim C2: a payload with a well-formed first entry
and a malformed second entry is one the parser cannot fully interpret,
yet the parser returns a non-empty list (the events parsed before the
malformed entry), not an empty list. -/
theorem parser_bad_entry_not_empty :
    hasBadPart payloadTrunc = true ∧
    parse_binance_data 0 payloadTrunc = [evZeta] ∧
    parse_binance_data 0 payloadTrunc ≠ [] := by
  with_unfolding_all decide

/-- Claim C2 as amended: a source parser never raises past its boundary;
an uninterpretable envelope yields an empty list, and a malformed or
out-of-range entry truncates the result at that entry, so the parser
returns exactly the events parsed from the entries preceding the first
erroneous one. -/
theorem parser_swallows_errors :
    (∀ now, parse_binance_data now .nonArray = []) ∧
    (∀ now l1 t l2, binanceStep now t = .err →
      parseBinanceList now (l1 ++ t :: l2) = parseBinanceList now l1) ∧
    (∀ now, parse_okx_data now .noData = []) ∧
    (∀ now l1 t l2, okxStep now t = .err →
      parseOkxList now (l1 ++ t :: l2) = parseOkxList now l1) := by
  refine ⟨fun now => rfl, ?_, fun now => rfl, ?_⟩
  · intro now l1 t l2 herr
    induction l1 with
    | nil =>
      simp only [List.nil_append, parseBinanceList, herr]
    | cons t0 rest ih =>
      rw [List.cons_append, parseBinanceList, parseBinanceList]
      rcases hs : binanceStep now t0 with _ | u0
      all_goals simp only [ih]
  · intro now l1 t l2 herr
    induction l1 with
    | nil =>
      simp only [List.nil_append, parseOkxList, herr]
    | cons t0 rest ih =>
      rw [List.cons_append, parseOkxList, parseOkxList]
      rcases hs : okxStep now t0 with _ | u0
      all_goals simp only [ih]

/-- Witness for claim C2 as amended, at a concrete payload. -/
theorem parser_swallows_errors_witness :
    binanceStep 0 tickerBad = .err ∧
    parseBinanceList 0 ([tickerGood] ++ tickerBad :: []) = parseBinanceList 0 [tickerGood] := by
  have herr : binanceStep 0 tickerBad = .err := by with_unfolding_all decide
  exact ⟨herr, parser_swallows_errors.2.1 0 [tickerGood] tickerBad [] herr⟩

set_option maxRecDepth 4000 in
/-- Counterexample for claim C3: on a payload whose single entry carries
the rate value 2 (absolute magnitude at least 1), the code still
multiplies by 100, the scaled rate 200 fails validation and the parser
emits nothing, whereas the magnitude-guarded scaling the claim describes
would pass the value through and emit an event with rate 2. -/
theorem scaling_heuristic_cex :
    parse_binance_data 0 payloadBig = [] ∧
    parse_binance_data_spec_scaled 0 payloadBig = [evBig] ∧
    parse_binance_data 0 payloadBig ≠ parse_binance_data_spec_scaled 0 payloadBig := by
  with_unfolding_all decide

/-- Claim C3 as amended: every source parser multiplies every extracted
nonzero rate value by 100 unconditionally; because scaled rates of
magnitude above 50 are rejected at event construction, every emitted
event carries `raw * 100` for a raw value of absolute magnitude under 1,
and a raw value of magnitude 1 or more never yields an event. -/
theorem scaling_unconditional :
    (∀ now l u, u ∈ parseBinanceList now l →
      ∃ q : ℚ, u.funding_rate = q * 100 ∧ pabs q < 1 ∧ ∃ t ∈ l, t.r = .val q) ∧
    (∀ now l u, u ∈ parseOkxList now l →
      ∃ q : ℚ, u.funding_rate = q * 100 ∧ pabs q < 1 ∧ ∃ t ∈ l, t.r = .val q) := by
  constructor
  · intro now l u hu
    obtain ⟨t, ht, hev⟩ := mem_parseBinanceList hu
    obtain ⟨q, hq, _, hmk⟩ := binanceStep_ev hev
    obtain ⟨_, hrate, _, _, _, _, hb, _⟩ := mkFundingUpdate_ok hmk
    exact ⟨q, hrate, pabs_scaled_small hb, ⟨t, ht, hq⟩⟩
  · intro now l u hu
    obtain ⟨t, ht, hev⟩ := mem_parseOkxList hu
    obtain ⟨q, hq, _, hmk⟩ := okxStep_ev hev
    obtain ⟨_, hrate, _, _, _, _, hb, _⟩ := mkFundingUpdate_ok hmk
    exact ⟨q, hrate, pabs_scaled_small hb, ⟨t, ht, hq⟩⟩

/-- Witness for claim C3 as amended, at a concrete payload. -/
theorem scaling_unconditional_witness :
    evZeta ∈ parseBinanceList 0 [tickerGood, tickerBad] ∧
    ∃ q : ℚ, evZeta.funding_rate = q * 100 ∧ pabs q < 1 ∧
      ∃ t ∈ [tickerGood, tickerBad], t.r = .val q := by
  have hmem : evZeta ∈ parseBinanceList 0 [tickerGood, tickerBad] := by
    with_unfolding_all decide
  exact ⟨hmem, scaling_unconditional.1 0 [tickerGood, tickerBad] evZeta hmem⟩

/-- Claim C1: `should_process_update` returns true exactly when the
annualized rate reaches the configured floor and either no prior event is
stored for the key, or at least 60 seconds have elapsed since the stored
prior and the change magnitude is at least 10; on acceptance the returned
event (stamped with the computed change magnitude when a prior existed)
replaces the stored prior for the key. -/
theorem filter_accept_spec (u : FundingUpdate) (st : FilterState) :
    ((should_process_update u st).1 = true ↔
      min_apr_threshold ≤ u.apr ∧
        (dictGet (fkey u) st = none ∨
          ∃ last, dictGet (fkey u) st = some last ∧
            60 ≤ u.timestamp - last.timestamp ∧ 10 ≤ changeMag u last)) ∧
    ((should_process_update u st).1 = true →
      (should_process_update u st).2.2 =
        dictInsert (fkey u) ((should_process_update u st).2.1) st) ∧
    (∀ last, (should_process_update u st).1 = true →
      dictGet (fkey u) st = some last →
      (should_process_update u st).2.1 = { u with change_percent := changeMag u last }) ∧
    ((should_process_update u st).1 = true → dictGet (fkey u) st = none →
      (should_process_update u st).2.1 = u) := by
  by_cases h1 : u.apr < min_apr_threshold
  · rw [spu_low h1]
    refine ⟨?_, by simp, by simp, by simp⟩
    constructor
    · intro h
      exact absurd h (by simp)
    · intro ⟨hle, _⟩
      exact absurd hle (not_le.mpr h1)
  · rcases hd : dictGet (fkey u) st with _ | last
    · rw [spu_new h1 hd]
      refine ⟨?_, by simp, ?_, by simp⟩
      · constructor
        · intro _
          exact ⟨not_lt.mp h1, Or.inl rfl⟩
        · intro _
          rfl
      · intro last _ hlast
        exact absurd hlast (by simp)
    · by_cases ht : u.timestamp - last.timestamp < 60
      · rw [spu_gate h1 hd ht]
        refine ⟨?_, by simp, by simp, by simp⟩
        constructor
        · intro h
          exact absurd h (by simp)
        · intro ⟨_, hor⟩
          rcases hor with hnone | ⟨last2, hlast2, hge, _⟩
          · exact absurd hnone (by simp)
          · injection hlast2 with he
            rw [← he] at hge
            exact absurd hge (not_le.mpr ht)
      · by_cases hc : changeMag u last < 10
        · rw [spu_small h1 hd ht hc]
          refine ⟨?_, by simp, by simp, by simp⟩
          constructor
          · intro h
            exact absurd h (by simp)
          · intro ⟨_, hor⟩
            rcases hor with hnone | ⟨last2, hlast2, _, hmag⟩
            · exact absurd hnone (by simp)
            · injection hlast2 with he
              rw [← he] at hmag
              exact absurd hmag (not_le.mpr hc)
        · rw [spu_accept h1 hd ht hc]
          refine ⟨?_, by simp, ?_, ?_⟩
          · constructor
            · intro _
              exact ⟨not_lt.mp h1, Or.inr ⟨last, rfl, not_lt.mp ht, not_lt.mp hc⟩⟩
            · intro _
              rfl
          · intro last2 _ hlast2
            injection hlast2 with he
            rw [← he]
          · intro _ hnone
            exact absurd hnone (by simp)

/-- Witness for claim C1 at a concrete event and the empty filter
state. -/
theorem filter_accept_spec_witness :
    (should_process_update evPrior []).1 = true := by
  refine (filter_accept_spec evPrior []).1.mpr ⟨?_, Or.inl rfl⟩
  with_unfolding_all decide

set_option maxRecDepth 8000 in
/-- Counterexample for claim C5: `should_process_update` hands back an
event object that differs from the one it was given; at this input the
stored prior exists, the time gate passes, and the change magnitude is
written into the `change_percent` field of the event. -/
theorem filter_mutates_event :
    (should_process_update evNext stPrior).2.1 ≠ evNext ∧
    ((should_process_update evNext stPrior).2.1).change_percent = 100 ∧
    evNext.change_percent = 0 := by
  with_unfolding_all decide

/-- Claim C5 as amended: within the pipeline only the `change_percent`
field of a constructed event is ever overwritten (by the significance
filter once the time gate has passed); `symbol`, `funding_rate`, `apr`,
`exchange` and `timestamp` are never changed after construction. -/
theorem filter_preserves_other_fields (u : FundingUpdate) (st : FilterState) :
    ((should_process_update u st).2.1).symbol = u.symbol ∧
    ((should_process_update u st).2.1).funding_rate = u.funding_rate ∧
    ((should_process_update u st).2.1).apr = u.apr ∧
    ((should_process_update u st).2.1).exchange = u.exchange ∧
    ((should_process_update u st).2.1).timestamp = u.timestamp :=
  spu_frame u st

/-- Witness for claim C5 as amended, at a concrete event and state. -/
theorem filter_preserves_other_fields_witness :
    ((should_process_update evNext stPrior).2.1).symbol = evNext.symbol ∧
    ((should_process_update evNext stPrior).2.1).funding_rate = evNext.funding_rate ∧
    ((should_process_update evNext stPrior).2.1).apr = evNext.apr ∧
    ((should_process_update evNext stPrior).2.1).exchange = evNext.exchange ∧
    ((should_process_update evNext stPrior).2.1).timestamp = evNext.timestamp :=
  filter_preserves_other_fields evNext stPrior

theorem spu_true_state {u : FundingUpdate} {st : FilterState}
    (h : (should_process_update u st).1 = true) :
    (should_process_update u st).2.2 =
      dictInsert (fkey u) ((should_process_update u st).2.1) st := by
  by_cases h1 : u.apr < min_apr_threshold
  · rw [spu_low h1] at h
    exact absurd h (by simp)
  · rcases hd : dictGet (fkey u) st with _ | last
    · rw [spu_new h1 hd]
    · by_cases ht : u.timestamp - last.timestamp < 60
      · rw [spu_gate h1 hd ht] at h
        exact absurd h (by simp)
      · by_cases hc : changeMag u last < 10
        · rw [spu_small h1 hd ht hc] at h
          exact absurd h (by simp)
        · rw [spu_accept h1 hd ht hc]

/-- Claim C8: a second reading with the same symbol, source, rate and
annualized rate, arriving less than 60 seconds after a first reading that
the filter accepted, is rejected by the time gate and leaves the filter
state exactly as the first acceptance left it. -/
theorem same_payload_within_window_once (u1 u2 : FundingUpdate) (st : FilterState)
    (hsym : u2.symbol = u1.symbol) (hex : u2.exchange = u1.exchange)
    (hrate : u2.funding_rate = u1.funding_rate) (hapr : u2.apr = u1.apr)
    (hacc : (should_process_update u1 st).1 = true)
    (hdt : u2.timestamp - u1.timestamp < 60) :
    (should_process_update u2 (should_process_update u1 st).2.2).1 = false ∧
    (should_process_update u2 (should_process_update u1 st).2.2).2.2 =
      (should_process_update u1 st).2.2 := by
  have h1 : ¬ u1.apr < min_apr_threshold := by
    intro h1
    rw [spu_low h1] at hacc
    exact absurd hacc (by simp)
  have hkey : fkey u2 = fkey u1 := by
    unfold fkey
    rw [hsym, hex]
  have hts : ((should_process_update u1 st).2.1).timestamp = u1.timestamp :=
    (spu_frame u1 st).2.2.2.2
  have hst : (should_process_update u1 st).2.2 =
      dictInsert (fkey u1) ((should_process_update u1 st).2.1) st :=
    spu_true_state hacc
  have hd2 : dictGet (fkey u2) ((should_process_update u1 st).2.2) =
      some ((should_process_update u1 st).2.1) := by
    rw [hst, hkey]
    exact dictGet_insert _ _ _
  have h1b : ¬ u2.apr < min_apr_threshold := by
    rw [hapr]
    exact h1
  have ht2 : u2.timestamp - ((should_process_update u1 st).2.1).timestamp < 60 := by
    rw [hts]
    exact hdt
  rw [spu_gate h1b hd2 ht2]
  exact ⟨rfl, rfl⟩

/-- Witness for claim C8: the same reading fed again 30 seconds later. -/
theorem same_payload_within_window_once_witness :
    (should_process_update evSame30 (should_process_update evPrior []).2.2).1 = false ∧
    (should_process_update evSame30 (should_process_update evPrior []).2.2).2.2 =
      (should_process_update evPrior []).2.2 :=
  same_payload_within_window_once evPrior evSame30 [] rfl rfl rfl rfl
    (by with_unfolding_all decide) (by with_unfolding_all decide)

/-- Claim C4 (recorded as a code bug): the dispatch queue is created by
`queue.Queue()` with no `maxsize`, so an enqueue always appends and after
`n` puts from the empty queue the queue holds exactly `n` items; for
every candidate capacity `N` a reachable queue exceeds it, so no fixed
bound and no drop-oldest or drop-newest policy exist. -/
theorem dispatch_queue_unbounded (u : FundingUpdate) (n : ℕ) :
    (putN u n).length = n ∧ n < (putN u (n + 1)).length := by
  have hlen : ∀ m, (putN u m).length = m := by
    intro m
    induction m with
    | zero => rfl
    | succ k ih =>
      rw [putN, queue_put, List.length_append, ih]
      rfl
  refine ⟨hlen n, ?_⟩
  rw [hlen (n + 1)]
  omega

/-- Witness for claim C4 at a concrete event and count. -/
theorem dispatch_queue_unbounded_witness :
    (putN evPrior 3).length = 3 ∧ 3 < (putN evPrior 4).length :=
  dispatch_queue_unbounded evPrior 3

/-- Claim C9: with the configured maximum of 10 reconnection attempts, a
run in which every connection attempt fails makes exactly 10 attempts,
ends in the terminal failed condition, and leaves the source absent from
the active connection set. -/
theorem reconnect_gives_up (conns : List String) (ex : String) :
    (monitor_exchange_all_fail max_reconnects conns ex).attempts = 10 ∧
    (monitor_exchange_all_fail max_reconnects conns ex).failedTerminal = true ∧
    ex ∉ (monitor_exchange_all_fail max_reconnects conns ex).connections := by
  refine ⟨rfl, rfl, ?_⟩
  intro hmem
  rw [monitor_exchange_all_fail] at hmem
  simp only [List.mem_filter] at hmem
  simp at hmem

/-- Witness for claim C9 at a concrete connection set. -/
theorem reconnect_gives_up_witness :
    (monitor_exchange_all_fail max_reconnects ["binance", "okx"] "binance").attempts = 10 ∧
    (monitor_exchange_all_fail max_reconnects ["binance", "okx"] "binance").failedTerminal = true ∧
    "binance" ∉ (monitor_exchange_all_fail max_reconnects ["binance", "okx"] "binance").connections :=
  reconnect_gives_up ["binance", "okx"] "binance"

/-- Claim C10: one run of the periodic sweep keeps a filter-state entry
exactly when its age at sweep time is at most one hour (3600 seconds):
entries strictly older than one hour are removed, entries aged one hour
or less are kept. -/
theorem sweep_evicts_exactly_old (now : ℚ) (st : FilterState) (k : String)
    (u : FundingUpdate) :
    (k, u) ∈ periodic_cleanup_once now st ↔
      (k, u) ∈ st ∧ now - u.timestamp ≤ 3600 := by
  unfold periodic_cleanup_once
  rw [List.mem_filter]
  constructor
  · intro ⟨hm, hb⟩
    refine ⟨hm, ?_⟩
    simp only [Bool.not_eq_true', decide_eq_false_iff_not, not_lt] at hb
    linarith
  · intro ⟨hm, hle⟩
    refine ⟨hm, ?_⟩
    simp only [Bool.not_eq_true', decide_eq_false_iff_not, not_lt]
    linarith

set_option maxRecDepth 8000 in
/-- Witness for claim C10: an hour-old entry survives a sweep at time
3600, and the same entry is gone after a sweep at a strictly later
time. -/
theorem sweep_evicts_exactly_old_witness :
    ("ZETA_Binance", evPrior) ∈ periodic_cleanup_once 3600 stPrior ∧
    ("ZETA_Binance", evPrior) ∉ periodic_cleanup_once 3601 stPrior := by
  constructor
  · exact (sweep_evicts_exactly_old 3600 stPrior "ZETA_Binance" evPrior).mpr
      ⟨by with_unfolding_all decide, by with_unfolding_all decide⟩
  · intro hmem
    have h := (sweep_evicts_exactly_old 3601 stPrior "ZETA_Binance" evPrior).mp hmem
    have : ¬ ((3601 : ℚ) - evPrior.timestamp ≤ 3600) := by
      with_unfolding_all decide
    exact this h.2

end FundingBot
